import Mathlib

/-!
Verification of the natural-language specification of the repository's two core
subsystems against the behavior the repository pins down:

* the temporal-dependency evaluator (the `PrevDagrunDep` analog, spec §4.1),
  whose implementation file is absent from the sample; it is modelled from the
  spec and from the exhaustive decision table asserted in
  `airflow-core/tests/unit/ti_deps/deps/test_prev_dagrun_dep.py`;
* the secret-redaction engine (`SecretsMasker`, spec §4.2-4.3), likewise
  modelled from the spec and pinned by
  `task-sdk/tests/task_sdk/definitions/test_secrets_masker.py`.

Recursion depth is embedded as explicit fuel (`fuel = max_depth + 1 - depth`),
so every definition is structurally recursive and computes by `decide`/`rfl`.
-/

namespace Airflow

/-! ## Dependency evaluator (spec §4.1) -/

/-- Task-instance states (the subset the dependency check distinguishes). -/
inductive TIState where
  | success
  | skipped
  | running
  | failed
  | upstream_failed
  | removed
  | scheduled
  | queued
deriving DecidableEq, Repr

/-- Modelled from the spec: `TaskPolicyFlags` (spec §3) — the task-definition
flags consumed by the evaluator. -/
structure TaskPolicy where
  depends_on_past : Bool
  ignore_first_depends_on_past : Bool
  wait_for_downstream : Bool
deriving DecidableEq, Repr

/-- Modelled from the spec: `DependencyContext` (spec §3) — evaluation-time
overrides carried by the dep context. -/
structure DepContext where
  ignore_depends_on_past : Bool
  wait_for_past_depends_before_skipping : Bool
deriving DecidableEq, Repr

/-- Modelled from the spec: the answers of the external lookup collaborator
(`PriorRunLookup`, spec §6) consumed during one evaluation: whether a
predecessor run exists, whether it has task instances for this task, whether
this task has any prior instances at all, how many predecessor instances are
not success/skipped, and whether some direct downstream instance of the
predecessor is not done.  These are the values the repository's test mocks as
`_has_tis`, `_has_any_prior_tis`, `_count_unsuccessful_tis` and
`_has_unsuccessful_dependants`. -/
structure DepEnv where
  prev_dagrun_exists : Bool
  has_tis : Bool
  has_any_prior_tis : Bool
  unsuccessful_tis_count : Nat
  has_unsuccessful_dependants : Bool
deriving DecidableEq, Repr

/-- Key under which the satisfaction marker is pushed (spec §3, §6). -/
def PAST_DEPENDS_MET : String := "past_depends_met"

/-- Modelled from the spec: `_push_past_deps_met_xcom_if_needed` — the marker
is emitted exactly when `wait_for_past_depends_before_skipping` is true, with
value `true` (spec §3 invariants; test lines 334-337). -/
def pushIfWait (ctx : DepContext) : List (String × Bool) :=
  if ctx.wait_for_past_depends_before_skipping then [(PAST_DEPENDS_MET, true)] else []

/-- Modelled from the spec: `PrevDagrunDep.is_met` (spec §4.1).  The
implementation file `airflow/ti_deps/deps/prev_dagrun_dep.py` is not in the
sample; the decision flow below follows spec §4.1 steps 1-8 and is pinned,
branch by branch, by the parameterized decision table of `test_dagrun_dep` and
by `test_first_task_run_of_new_task`.  Where the spec and the repository's
tests disagree (the test `not_depends_on_past_with_wait` asserts the marker IS
pushed when `depends_on_past` is false and the wait flag is true, against spec
step 1), the tests are followed.  Returns the verdict together with the list
of marker pushes performed during the evaluation. -/
def is_met (policy : TaskPolicy) (ctx : DepContext) (env : DepEnv) :
    Bool × List (String × Bool) :=
  if !policy.depends_on_past then
    (true, pushIfWait ctx)
  else if ctx.ignore_depends_on_past then
    (true, pushIfWait ctx)
  else if !env.prev_dagrun_exists then
    (true, pushIfWait ctx)
  else if !env.has_tis then
    if policy.ignore_first_depends_on_past && !env.has_any_prior_tis then
      (true, pushIfWait ctx)
    else
      (false, [])
  else if env.unsuccessful_tis_count > 0 then
    (false, [])
  else if policy.wait_for_downstream && env.has_unsuccessful_dependants then
    (false, [])
  else
    (true, pushIfWait ctx)

/-- One predecessor task instance as the test harness builds it: a state
(`none` models Python's `None` state) plus the answer of
`are_dependents_done`. -/
structure PrevTI where
  state : Option TIState
  dependents_done : Bool
deriving DecidableEq, Repr

/-- Whether a predecessor task-instance state counts as unsuccessful: its
state is not in `{success, skipped}` (test lines 302-304). -/
def unsuccessfulState (s : Option TIState) : Bool :=
  !(s = some TIState.success || s = some TIState.skipped)

/-- The lookup environment exactly as `test_dagrun_dep` constructs it from a
list of predecessor task instances: a predecessor run exists iff the list is
nonempty, `_has_tis` and `_has_any_prior_tis` answer its nonemptiness,
`_count_unsuccessful_tis` counts the non-success/skipped states, and
`_has_unsuccessful_dependants` asks whether some instance's dependents are not
done (test lines 278-309). -/
def mkEnv (prevTis : List PrevTI) : DepEnv :=
  { prev_dagrun_exists := !prevTis.isEmpty
    has_tis := !prevTis.isEmpty
    has_any_prior_tis := !prevTis.isEmpty
    unsuccessful_tis_count := (prevTis.filter fun t => unsuccessfulState t.state).length
    has_unsuccessful_dependants := prevTis.any fun t => !t.dependents_done }

/-! ## Secret-redaction engine (spec §4.2) -/

/-- The redaction token (spec §4.2). -/
def REDACTED : String := "***"

/-- Default bound on traversal depth (spec §6; pinned by
`test_redact_max_depth`: five levels are redacted, six are not). -/
def MAX_RECURSION_DEPTH : Nat := 5

/-- A Python dict key: a string or a non-string (integer) key
(`test_redact` uses the key `1`). -/
inductive PyKey where
  | kstr (s : String)
  | kint (n : Int)
deriving DecidableEq, Repr

/-- A Python value as the redaction engine dispatches on it (spec §4.2):
string / int / bool / None scalars, lists, tuples, sets, dicts, and inert
file-like objects that are returned unchanged. -/
inductive PyVal where
  | pstr (s : String)
  | pint (n : Int)
  | pbool (b : Bool)
  | pnone
  | pfile (tag : Nat)
  | plist (xs : List PyVal)
  | ptuple (xs : List PyVal)
  | pset (xs : List PyVal)
  | pdict (kvs : List (PyKey × PyVal))

/-- Lower-case a string, character-wise. -/
def lowerChars (s : String) : List Char :=
  s.data.map Char.toLower

/-- Plain structural prefix test on character lists. -/
def isPrefixChars : List Char → List Char → Bool
  | [], _ => true
  | _ :: _, [] => false
  | a :: as, b :: bs => a = b && isPrefixChars as bs

/-- Substring test on character lists: `pat` occurs somewhere in `s`. -/
def isSubstr (pat : List Char) : List Char → Bool
  | [] => pat.isEmpty
  | c :: rest => isPrefixChars pat (c :: rest) || isSubstr pat rest

/-- Modelled from the spec: the default list of sensitive field-name
substrings (spec §6; pinned by `TestShouldHideValueForKey.test_hiding_defaults`:
`google_api_key` matches, bare `key` does not). -/
def DEFAULT_SENSITIVE_FIELDS : List String :=
  ["access_token", "api_key", "apikey", "authorization", "passphrase",
   "passwd", "password", "private_key", "secret", "token"]

/-- Modelled from the spec: `should_hide_value_for_key` — a field name is
sensitive iff it is a nonempty string containing (case-insensitively) one of
the configured substrings (spec §4.2; non-string keys are never sensitive). -/
def should_hide_value_for_key (name : Option PyKey) : Bool :=
  match name with
  | some (PyKey.kstr s) =>
      !s.isEmpty && DEFAULT_SENSITIVE_FIELDS.any fun f => isSubstr f.data (lowerChars s)
  | _ => false

/-- Length of the longest registered pattern matching a prefix of `s`
(0 when none matches); the replacer is a longest-match union of the
registered literal patterns (spec §4.2). -/
def matchLen (pats : List (List Char)) (s : List Char) : Nat :=
  pats.foldl (fun acc p => if isPrefixChars p s && acc < p.length then p.length else acc) 0

/-- Free-text replacement driver: scan left to right, replacing every
occurrence of a registered pattern by the token.  `fuel` bounds the scan and
is instantiated with the input length (each step consumes at least one
character). -/
def maskCharsF (pats : List (List Char)) : Nat → List Char → List Char
  | 0, s => s
  | _ + 1, [] => []
  | fuel + 1, c :: rest =>
      let n := matchLen pats (c :: rest)
      if n = 0 then c :: maskCharsF pats fuel rest
      else REDACTED.data ++ maskCharsF pats fuel (rest.drop (n - 1))

/-- Modelled from the spec: the compiled replacer applied to one string —
every occurrence of a registered pattern is replaced by the token
(spec §4.2, scalar-string case). -/
def maskString (pats : List String) (s : String) : String :=
  String.mk (maskCharsF (pats.map String.data) s.data.length s.data)

/-- Modelled from the spec: the `SensitivePatternStore` state — the set of
registered literal patterns plus the one-per-process short-secret warning
latch (`SecretsMasker.patterns`, `SecretsMasker._has_warned_short_secret`). -/
structure Masker where
  patterns : List String
  has_warned_short_secret : Bool
deriving DecidableEq, Repr

/-- Modelled from the spec: reserved keyword strings `add_mask` refuses to
register (pinned by `test_add_mask_short_secrets_and_skip_keywords`:
`"airflow"` is skipped silently). -/
def SKIP_KEYWORDS : List String := ["airflow"]

/-- Modelled from the spec: the string branch of `add_mask` (spec §4.2,
pattern addition).  An empty candidate, a candidate under a non-sensitive
explicit field name, and a reserved keyword are skipped silently; a candidate
shorter than the configured minimum length is skipped with a warning emitted
only the first time per process; otherwise the candidate is registered as a
literal pattern.  Returns the new store state and the number of warnings
logged by this call. -/
def add_mask (minLen : Nat) (m : Masker) (secret : String) (name : Option PyKey) :
    Masker × Nat :=
  if secret.isEmpty then (m, 0)
  else if name.isSome && !should_hide_value_for_key name then (m, 0)
  else if secret ∈ SKIP_KEYWORDS then (m, 0)
  else if secret.length < minLen then
    if m.has_warned_short_secret then (m, 0)
    else ({ m with has_warned_short_secret := true }, 1)
  else if secret ∈ m.patterns then (m, 0)
  else ({ m with patterns := secret :: m.patterns }, 0)

/-- Fold a sequence of `add_mask` calls, accumulating the warning count. -/
def add_mask_seq (minLen : Nat) (m : Masker) : List (String × Option PyKey) → Masker × Nat
  | [] => (m, 0)
  | (s, n) :: rest =>
      let r := add_mask minLen m s n
      let r2 := add_mask_seq minLen r.1 rest
      (r2.1, r.2 + r2.2)

/-- Modelled from the spec: `SecretsMasker._redact_all` — total, name-blind
redaction of a subtree once a sensitive field name was seen: every string
leaf becomes the token, containers are rebuilt (sets become tuples), other
leaves are returned unchanged; once the depth budget is exhausted the
remaining subtree is returned unredacted (spec §4.2; pinned by
`test_redact_all_directly`, where the number `12345` and the boolean `True`
survive).  `fuel = max_depth + 1 - depth`. -/
def redact_all : Nat → PyVal → PyVal
  | 0, v => v
  | fuel + 1, v =>
      match v with
      | PyVal.pstr _ => PyVal.pstr REDACTED
      | PyVal.pdict kvs => PyVal.pdict (kvs.map fun kv => (kv.1, redact_all fuel kv.2))
      | PyVal.plist xs => PyVal.plist (xs.map fun x => redact_all fuel x)
      | PyVal.ptuple xs => PyVal.ptuple (xs.map fun x => redact_all fuel x)
      | PyVal.pset xs => PyVal.ptuple (xs.map fun x => redact_all fuel x)
      | other => other

/-- Modelled from the spec: `SecretsMasker._redact` (spec §4.2).  Once the
depth budget is exhausted the value is returned unmodified; a sensitive field
name switches to total redaction of the subtree; dicts recurse using each key
as the new field-name hint; strings go through the pattern replacer;
list/tuple/set elements inherit the container's field-name hint (sets come
back as tuples); other values are returned unchanged.
`fuel = max_depth + 1 - depth`. -/
def redactF (m : Masker) : Nat → PyVal → Option PyKey → PyVal
  | 0, v, _ => v
  | fuel + 1, v, name =>
      if should_hide_value_for_key name then redact_all (fuel + 1) v
      else
        match v with
        | PyVal.pdict kvs =>
            PyVal.pdict (kvs.map fun kv => (kv.1, redactF m fuel kv.2 (some kv.1)))
        | PyVal.pstr s => PyVal.pstr (maskString m.patterns s)
        | PyVal.plist xs => PyVal.plist (xs.map fun x => redactF m fuel x name)
        | PyVal.ptuple xs => PyVal.ptuple (xs.map fun x => redactF m fuel x name)
        | PyVal.pset xs => PyVal.ptuple (xs.map fun x => redactF m fuel x name)
        | other => other

/-- Modelled from the spec: `redact(value, name, max_depth)` — the public
entry point, starting at depth 0 with the given (or default) depth bound. -/
def redact (m : Masker) (v : PyVal) (name : Option PyKey) (max_depth : Option Nat) : PyVal :=
  redactF m ((max_depth.getD MAX_RECURSION_DEPTH) + 1) v name

/-- First value stored under a key in a dict's entry list. -/
def lookupKey (k : PyKey) : List (PyKey × PyVal) → Option PyVal
  | [] => none
  | kv :: rest => if kv.1 = k then some kv.2 else lookupKey k rest

/-- Modelled from the spec: `SecretsMasker._merge` (spec §4.3).  Past the
depth budget the new value is kept; dicts merge key-by-key (keys only in the
new dict are kept verbatim, keys only in the old dict are dropped); a string
equal to the token under a sensitive field name is restored from the old
value (pinned by `test_merge_simple_strings`: under a non-sensitive name the
token is kept); lists and tuples merge positionally up to the shorter length
with extra new-side elements kept verbatim, elements inheriting the
container's field name; any other combination (type mismatch, sets, scalars)
keeps the new value.  `fuel = max_depth + 1 - depth`. -/
def mergeF : Nat → PyVal → PyVal → Option PyKey → PyVal
  | 0, newV, _, _ => newV
  | fuel + 1, newV, oldV, name =>
      match newV, oldV with
      | PyVal.pdict nkvs, PyVal.pdict okvs =>
          PyVal.pdict (nkvs.map fun kv =>
            match lookupKey kv.1 okvs with
            | some ov => (kv.1, mergeF fuel kv.2 ov (some kv.1))
            | none => kv)
      | PyVal.pstr ns, PyVal.pstr os =>
          if ns = REDACTED && should_hide_value_for_key name then PyVal.pstr os
          else PyVal.pstr ns
      | PyVal.plist nxs, PyVal.plist oxs =>
          PyVal.plist (((nxs.zip oxs).map fun p => mergeF fuel p.1 p.2 name)
            ++ nxs.drop oxs.length)
      | PyVal.ptuple nxs, PyVal.ptuple oxs =>
          PyVal.ptuple (((nxs.zip oxs).map fun p => mergeF fuel p.1 p.2 name)
            ++ nxs.drop oxs.length)
      | _, _ => newV

/-- Modelled from the spec: `merge(new_value, old_value, name, max_depth)` —
the public entry point, starting at depth 0 with the given (or default)
depth bound. -/
def merge (new_value old_value : PyVal) (name : Option PyKey) (max_depth : Option Nat) : PyVal :=
  mergeF ((max_depth.getD MAX_RECURSION_DEPTH) + 1) new_value old_value name

/-! ## Helpers for theorem statements -/

/-- Whether a value is a plain string. -/
def isPStr : PyVal → Bool
  | PyVal.pstr _ => true
  | _ => false

/-- Whether a key already occurs in a dict's entry list. -/
def dupKey (k : PyKey) (kvs : List (PyKey × PyVal)) : Bool :=
  kvs.any fun kv => kv.1 == k

/-- Whether a dict's entry list has pairwise distinct keys. -/
def nodupKeys : List (PyKey × PyVal) → Bool
  | [] => true
  | kv :: rest => !dupKey kv.1 rest && nodupKeys rest

/-- Round-trip-safe values, checked to the given depth budget: no sets (sets
are lossily rebuilt as tuples by redaction), no string equal to the token,
dict keys pairwise distinct, and every value stored under a sensitive key is
a plain string.  Beyond the budget both redaction and merge are the identity,
so nothing is required there. -/
def RTSafeF : Nat → PyVal → Bool
  | 0, _ => true
  | fuel + 1, v =>
      match v with
      | PyVal.pstr s => !(s == REDACTED)
      | PyVal.pint _ | PyVal.pbool _ | PyVal.pnone | PyVal.pfile _ => true
      | PyVal.plist xs => xs.all fun x => RTSafeF fuel x
      | PyVal.ptuple xs => xs.all fun x => RTSafeF fuel x
      | PyVal.pset _ => false
      | PyVal.pdict kvs =>
          nodupKeys kvs &&
          kvs.all fun kv =>
            (!should_hide_value_for_key (some kv.1) || isPStr kv.2) && RTSafeF fuel kv.2

/-- Wrap a value in the given number of singleton list layers. -/
def nest_list : Nat → PyVal → PyVal
  | 0, v => v
  | n + 1, v => PyVal.plist [nest_list n v]

/-! ## Heap model for cycle safety (spec §4.2, identity-based visited set)

Python objects live on a heap and containers hold references, so a
self-referential mapping is representable: a heap node may refer back to its
own index.  `redact_heap` is the redaction traversal over such an object
graph; its well-founded recursion measure is the number of heap indices not
yet visited, which is exactly the termination argument the spec's
visited-object set provides. -/

/-- A heap node: a scalar, or a container holding references (heap indices). -/
inductive HNode where
  | hstr (s : String)
  | hint (n : Int)
  | hbool (b : Bool)
  | hnone
  | hlist (refs : List Nat)
  | hdict (kvs : List (PyKey × Nat))
deriving DecidableEq, Repr

/-- Output of heap redaction: a tree, where `oref r` stands for the original
heap object `r` returned as-is on re-encounter (the back-edge of a cycle). -/
inductive HOut where
  | ostr (s : String)
  | oint (n : Int)
  | obool (b : Bool)
  | onone
  | olist (xs : List HOut)
  | odict (kvs : List (PyKey × HOut))
  | oref (r : Nat)

/-- Heap lookup by index. -/
def nth : List HNode → Nat → Option HNode
  | [], _ => none
  | x :: _, 0 => some x
  | _ :: rest, n + 1 => nth rest n

theorem nth_lt_length {heap : List HNode} {i : Nat} {x : HNode}
    (h : nth heap i = some x) : i < heap.length := by
  induction heap generalizing i with
  | nil => simp [nth] at h
  | cons a rest ih =>
      cases i with
      | zero => simp
      | succ n =>
          simp only [nth] at h
          simpa using Nat.succ_lt_succ (ih h)

/-- Modelled from the spec: the redaction traversal over a heap-embedded
object graph with an identity-based visited set (spec §4.2).  The visited set
holds the indices of the containers on the current descent path; a container
whose index was already seen is returned as-is (`oref`) rather than
re-descended, which is what makes the traversal terminate on cyclic inputs.
`allMode` records that a sensitive field name was passed on the way down
(the `_redact_all` switch); dict entries turn it on when their key is
sensitive.  The depth bound is left out here to isolate cycle safety: with an
unbounded depth budget, termination rests on the visited set alone. -/
def redact_heap (m : Masker) (heap : List HNode) (visited : Finset Nat)
    (ref : Nat) (allMode : Bool) : HOut :=
  match h : nth heap ref with
  | none => HOut.oref ref
  | some (HNode.hstr s) =>
      if allMode then HOut.ostr REDACTED else HOut.ostr (maskString m.patterns s)
  | some (HNode.hint n) => HOut.oint n
  | some (HNode.hbool b) => HOut.obool b
  | some HNode.hnone => HOut.onone
  | some (HNode.hlist refs) =>
      if ref ∈ visited then HOut.oref ref
      else HOut.olist (refs.map fun r => redact_heap m heap (insert ref visited) r allMode)
  | some (HNode.hdict kvs) =>
      if ref ∈ visited then HOut.oref ref
      else HOut.odict (kvs.map fun kv =>
        (kv.1, redact_heap m heap (insert ref visited) kv.2
          (allMode || should_hide_value_for_key (some kv.1))))
termination_by ((Finset.range heap.length) \ visited).card
decreasing_by
  all_goals
    rename_i hv
    have hlt : ref < heap.length := nth_lt_length h
    have hmem : ref ∈ (Finset.range heap.length) \ visited := by
      simp only [Finset.mem_sdiff, Finset.mem_range]
      exact ⟨hlt, hv⟩
    have hset : (Finset.range heap.length) \ insert ref visited
        = ((Finset.range heap.length) \ visited).erase ref := by
      ext i
      simp only [Finset.mem_sdiff, Finset.mem_insert, Finset.mem_erase, Finset.mem_range]
      tauto
    rw [hset]
    exact Finset.card_erase_lt_of_mem hmem

/-! ## Claims about the dependency evaluator -/

/-- C1 (counterexample): with `depends_on_past = false` and
`wait_for_past_depends_before_skipping = true` the evaluation DOES push the
`past_depends_met` marker (exactly as the repository test
`not_depends_on_past_with_wait` asserts), refuting the claim that the marker
is never pushed for `depends_on_past = false`. -/
theorem c1_counterexample :
    (is_met ⟨false, false, false⟩ ⟨false, true⟩ (mkEnv [⟨none, false⟩])).2
      = [(PAST_DEPENDS_MET, true)] ∧
    (is_met ⟨false, false, false⟩ ⟨false, true⟩ (mkEnv [⟨none, false⟩])).2 ≠ [] := by
  exact ⟨rfl, by decide⟩

/-- C1 (amended): for every task with `depends_on_past = false`, `is_met`
returns true for every combination of context flags and predecessor data, and
the `past_depends_met` marker is pushed if and only if
`wait_for_past_depends_before_skipping` is true (with value true). -/
theorem c1_no_depends_on_past_met_marker_iff_wait
    (ifirst wdown ig w : Bool) (tis : List PrevTI) :
    is_met ⟨false, ifirst, wdown⟩ ⟨ig, w⟩ (mkEnv tis)
      = (true, if w then [(PAST_DEPENDS_MET, true)] else []) := by
  cases w <;> simp [is_met, pushIfWait]

/-- C2: with `depends_on_past = true`, the context not ignoring the
dependency, and a predecessor run holding instances of this task, if some
predecessor instance's state is not success/skipped, or all are
success/skipped but `wait_for_downstream = true` and some predecessor
instance's dependents are not done, then `is_met` returns false and no
marker is pushed — regardless of the wait flag. -/
theorem c2_unsuccessful_prev_fails_without_marker
    (ifirst wdown w : Bool) (tis : List PrevTI)
    (hne : tis ≠ [])
    (hfail : (∃ t ∈ tis, unsuccessfulState t.state = true) ∨
             ((∀ t ∈ tis, unsuccessfulState t.state = false) ∧ wdown = true ∧
              ∃ t ∈ tis, t.dependents_done = false)) :
    is_met ⟨true, ifirst, wdown⟩ ⟨false, w⟩ (mkEnv tis) = (false, []) := by
  have hempty : tis.isEmpty = false := by
    cases tis with
    | nil => exact absurd rfl hne
    | cons a l => rfl
  rcases hfail with ⟨t, ht, hunsucc⟩ | ⟨hall, hwd, t, ht, hdep⟩
  · have hmem : t ∈ tis.filter fun t => unsuccessfulState t.state :=
      List.mem_filter.mpr ⟨ht, hunsucc⟩
    have hpos : 0 < (tis.filter fun t => unsuccessfulState t.state).length :=
      List.length_pos.mpr (List.ne_nil_of_mem hmem)
    simp [is_met, mkEnv, hempty, hpos]
  · have hnil : (tis.filter fun t => unsuccessfulState t.state) = [] :=
      List.filter_eq_nil_iff.mpr (by simpa using hall)
    have hany : (tis.any fun t => !t.dependents_done) = true :=
      List.any_eq_true.mpr ⟨t, ht, by simp [hdep]⟩
    simp [is_met, mkEnv, hempty, hnil, hwd, hany]

/-- C2 (witness): the `prev_ti_bad_state` scenario — one predecessor instance
with state `None` — fails the dep and pushes nothing even with the wait flag
set. -/
theorem c2_unsuccessful_prev_fails_without_marker_witness :
    is_met ⟨true, false, false⟩ ⟨false, true⟩ (mkEnv [⟨none, true⟩]) = (false, []) :=
  c2_unsuccessful_prev_fails_without_marker false false true [⟨none, true⟩]
    (by decide) (Or.inl ⟨⟨none, true⟩, by decide, by decide⟩)

/-- C7: in any single evaluation, the `past_depends_met` marker is pushed at
most once, always with value true, and only when
`wait_for_past_depends_before_skipping` is true; with that flag false nothing
is ever pushed. -/
theorem c7_marker_pushed_at_most_once_iff_wait
    (policy : TaskPolicy) (ctx : DepContext) (env : DepEnv) :
    (is_met policy ctx env).2 = [] ∨
    (ctx.wait_for_past_depends_before_skipping = true ∧
     (is_met policy ctx env).2 = [(PAST_DEPENDS_MET, true)]) := by
  unfold is_met pushIfWait
  cases hw : ctx.wait_for_past_depends_before_skipping with
  | false =>
      left
      simp only [hw, Bool.false_eq_true, if_false]
      split_ifs <;> rfl
  | true =>
      simp only [hw, if_true]
      split_ifs <;> simp

/-! ## Claims about redaction and merge -/

/-- C5 (counterexample): `merge("***", "original_value", "normal_field")`
returns `"***"`, not the old value — token restoration happens only under a
sensitive field name (exactly as `test_merge_simple_strings` asserts),
refuting the claim that merge restores the old value for every field name. -/
theorem c5_counterexample :
    merge (PyVal.pstr "***") (PyVal.pstr "original_value")
        (some (PyKey.kstr "normal_field")) none = PyVal.pstr "***" ∧
    merge (PyVal.pstr "***") (PyVal.pstr "original_value")
        (some (PyKey.kstr "normal_field")) none ≠ PyVal.pstr "original_value" := by
  refine ⟨rfl, ?_⟩
  intro h
  rw [show merge (PyVal.pstr "***") (PyVal.pstr "original_value")
        (some (PyKey.kstr "normal_field")) none = PyVal.pstr "***" from rfl] at h
  simp at h

/-- C5 (amended): for scalar strings, merge returns the old value exactly
when the new value equals the token AND the field name is sensitive;
otherwise it returns the new value. -/
theorem c5_scalar_merge_token_restores_iff_sensitive
    (ns os : String) (name : Option PyKey) :
    merge (PyVal.pstr ns) (PyVal.pstr os) name none =
      if ns = REDACTED ∧ should_hide_value_for_key name = true
      then PyVal.pstr os else PyVal.pstr ns := by
  show mergeF 6 (PyVal.pstr ns) (PyVal.pstr os) name = _
  simp only [mergeF]
  by_cases h1 : ns = REDACTED <;> by_cases h2 : should_hide_value_for_key name = true <;>
    simp [h1, h2]

/-- C3 (counterexample): a non-string value under a sensitive key is NOT
replaced by the token — `redact {"password": 12345}` returns the number
unchanged (exactly as `test_redact_all_directly` asserts for `_redact_all`),
refuting the claim that the entire value subtree becomes `"***"`. -/
theorem c3_counterexample :
    redact ⟨[], false⟩ (PyVal.pdict [(PyKey.kstr "password", PyVal.pint 12345)]) none none
      = PyVal.pdict [(PyKey.kstr "password", PyVal.pint 12345)] ∧
    redact ⟨[], false⟩ (PyVal.pdict [(PyKey.kstr "password", PyVal.pint 12345)]) none none
      ≠ PyVal.pdict [(PyKey.kstr "password", PyVal.pstr "***")] := by
  refine ⟨rfl, ?_⟩
  intro h
  rw [show redact ⟨[], false⟩
        (PyVal.pdict [(PyKey.kstr "password", PyVal.pint 12345)]) none none
      = PyVal.pdict [(PyKey.kstr "password", PyVal.pint 12345)] from rfl] at h
  simp at h

/-- C3 (amended): a sensitive key name switches redaction to the total,
name-blind mode for the whole value subtree; in that mode every string leaf
(within the depth budget) becomes the token regardless of its content or of
any registered pattern, containers are rebuilt, and non-string leaves such as
numbers and booleans are returned unchanged — witnessed on the two cited test
scenarios. -/
theorem c3_sensitive_key_redacts_string_leaves_only :
    (∀ (m : Masker) (fuel : Nat) (v : PyVal) (name : Option PyKey),
        should_hide_value_for_key name = true →
        redactF m (fuel + 1) v name = redact_all (fuel + 1) v) ∧
    (∀ (fuel : Nat) (s : String),
        redact_all (fuel + 1) (PyVal.pstr s) = PyVal.pstr REDACTED) ∧
    (∀ (fuel : Nat) (n : Int), redact_all fuel (PyVal.pint n) = PyVal.pint n) ∧
    (∀ (fuel : Nat) (b : Bool), redact_all fuel (PyVal.pbool b) = PyVal.pbool b) ∧
    redact ⟨["secret"], false⟩
        (PyVal.pdict [(PyKey.kstr "other", PyVal.pstr "innoent"),
          (PyKey.kstr "nested", PyVal.plist [PyVal.pstr "x", PyVal.pstr "y"])])
        (some (PyKey.kstr "api_key")) none
      = PyVal.pdict [(PyKey.kstr "other", PyVal.pstr "***"),
          (PyKey.kstr "nested", PyVal.plist [PyVal.pstr "***", PyVal.pstr "***"])] ∧
    redact_all 6 (PyVal.pdict [(PyKey.kstr "string", PyVal.pstr "should_be_masked"),
        (PyKey.kstr "number", PyVal.pint 12345), (PyKey.kstr "boolean", PyVal.pbool true),
        (PyKey.kstr "set", PyVal.pset [PyVal.pstr "x", PyVal.pstr "y"])])
      = PyVal.pdict [(PyKey.kstr "string", PyVal.pstr "***"),
        (PyKey.kstr "number", PyVal.pint 12345), (PyKey.kstr "boolean", PyVal.pbool true),
        (PyKey.kstr "set", PyVal.ptuple [PyVal.pstr "***", PyVal.pstr "***"])] := by
  refine ⟨?_, ?_, ?_, ?_, rfl, rfl⟩
  · intro m fuel v name h
    simp [redactF, h]
  · intro fuel s
    rfl
  · intro fuel n
    cases fuel <;> rfl
  · intro fuel b
    cases fuel <;> rfl

/-- C3 (witness): the sensitive-name dispatch applied at a concrete input. -/
theorem c3_sensitive_key_redacts_string_leaves_only_witness :
    redactF ⟨[], false⟩ 6 (PyVal.pint 12345) (some (PyKey.kstr "password"))
      = redact_all 6 (PyVal.pint 12345) :=
  c3_sensitive_key_redacts_string_leaves_only.1 ⟨[], false⟩ 5 (PyVal.pint 12345)
    (some (PyKey.kstr "password")) (by decide)

/-- For every fuel budget, redacting a value nested exactly that many list
levels deep leaves the wrapped value untouched: the recursion exhausts its
budget right where the subtree starts. -/
theorem redactF_nest_exhausts_fuel (m : Masker) :
    ∀ (fuel : Nat) (v : PyVal), redactF m fuel (nest_list fuel v) none = nest_list fuel v := by
  intro fuel
  induction fuel with
  | zero => intro v; rfl
  | succ n ih =>
      intro v
      simp [nest_list, redactF, should_hide_value_for_key, ih v]

/-- C8: subtrees lying deeper than `max_depth` are returned unmodified —
for EVERY value `v` and every bound, redacting `v` wrapped in `max_depth + 1`
list levels returns it verbatim; and on the cited test scenario, the depth-6
leaf survives the default bound of 5 while the depth-5 leaf is still
redacted. -/
theorem c8_over_depth_subtrees_unmodified :
    (∀ (m : Masker) (maxD : Nat) (v : PyVal),
        redact m (nest_list (maxD + 1) v) none (some maxD) = nest_list (maxD + 1) v) ∧
    redact ⟨["abcdef"], false⟩ (nest_list 6 (PyVal.pstr "abcdef")) none none
      = nest_list 6 (PyVal.pstr "abcdef") ∧
    redact ⟨["abcdef"], false⟩ (nest_list 5 (PyVal.pstr "abcdef")) none none
      = nest_list 5 (PyVal.pstr "***") := by
  refine ⟨?_, rfl, rfl⟩
  intro m maxD v
  exact redactF_nest_exhausts_fuel m (maxD + 1) v

/-- C10: `add_mask` silently refuses the reserved keyword `"airflow"` — for
every store state, name hint and configured minimum length the call changes
nothing and logs nothing; the keyword can never enter the pattern set through
`add_mask`; and free text containing it stays unredacted afterwards. -/
theorem c10_keyword_never_registered :
    (∀ (minLen : Nat) (m : Masker) (name : Option PyKey),
        add_mask minLen m "airflow" name = (m, 0)) ∧
    (∀ (minLen : Nat) (m : Masker) (s : String) (name : Option PyKey),
        "airflow" ∉ m.patterns → "airflow" ∉ (add_mask minLen m s name).1.patterns) ∧
    maskString (add_mask 5 ⟨[], false⟩ "airflow" none).1.patterns "airflow connection"
      = "airflow connection" := by
  refine ⟨?_, ?_, rfl⟩
  · intro minLen m name
    unfold add_mask
    split_ifs with h1 h2 h3 <;> first | rfl | exact absurd (by decide) h3
  · intro minLen m s name hnotin
    unfold add_mask
    split_ifs with h1 h2 h3 h4 h5 h6 <;> simp_all [SKIP_KEYWORDS]
    intro hs
    exact h3 hs.symm

/-- C10 (witness): the keyword-freeness invariant applied at a concrete
store. -/
theorem c10_keyword_never_registered_witness :
    "airflow" ∉ (add_mask 5 ⟨["valid_secret"], false⟩ "other_secret" none).1.patterns :=
  c10_keyword_never_registered.2.1 5 ⟨["valid_secret"], false⟩ "other_secret" none
    (by decide)

/-! ## Minimum secret length (C6) -/

theorem isPrefixChars_length_le {p s : List Char} (h : isPrefixChars p s = true) :
    p.length ≤ s.length := by
  induction p generalizing s with
  | nil => simp
  | cons a as ih =>
      cases s with
      | nil => simp [isPrefixChars] at h
      | cons b bs =>
          simp only [isPrefixChars, Bool.and_eq_true] at h
          simpa using ih h.2

theorem matchLen_eq_zero {pats : List (List Char)} {s : List Char}
    (h : ∀ p ∈ pats, s.length < p.length) : matchLen pats s = 0 := by
  induction pats with
  | nil => rfl
  | cons p rest ih =>
      have hp : isPrefixChars p s = false := by
        cases hps : isPrefixChars p s
        · rfl
        · exact absurd (isPrefixChars_length_le hps)
            (Nat.not_le.mpr (h p (by simp)))
      have step : matchLen (p :: rest) s = matchLen rest s := by
        simp [matchLen, hp]
      rw [step]
      exact ih fun q hq => h q (by simp [hq])

theorem maskCharsF_no_match {pats : List (List Char)} :
    ∀ (fuel : Nat) (s : List Char), (∀ p ∈ pats, s.length < p.length) →
      maskCharsF pats fuel s = s := by
  intro fuel
  induction fuel with
  | zero => intro s _; rfl
  | succ n ih =>
      intro s h
      cases s with
      | nil => rfl
      | cons c rest =>
          have hm : matchLen pats (c :: rest) = 0 := matchLen_eq_zero h
          have hrest : ∀ p ∈ pats, rest.length < p.length := by
            intro p hp
            have := h p hp
            simp only [List.length_cons] at this
            omega
          simp [maskCharsF, hm, ih rest hrest]

/-- Free text strictly shorter than every registered pattern is returned
unchanged by the replacer. -/
theorem maskString_all_patterns_longer {pats : List String} {s : String}
    (h : ∀ p ∈ pats, s.length < p.length) : maskString pats s = s := by
  have hp : ∀ p ∈ pats.map String.data, s.data.length < p.length := by
    intro p hp
    simp only [List.mem_map] at hp
    obtain ⟨q, hq, rfl⟩ := hp
    exact h q hq
  unfold maskString
  rw [maskCharsF_no_match _ _ hp]

/-- All registered patterns respect the configured minimum length. -/
def patterns_long_enough (minLen : Nat) (m : Masker) : Prop :=
  ∀ p ∈ m.patterns, minLen ≤ p.length

theorem add_mask_preserves_long_enough (minLen : Nat) (m : Masker) (s : String)
    (name : Option PyKey) (h : patterns_long_enough minLen m) :
    patterns_long_enough minLen (add_mask minLen m s name).1 := by
  unfold add_mask
  split_ifs with h1 h2 h3 h4 h5 h6 <;> try exact h
  intro p hp
  rcases List.mem_cons.mp hp with rfl | hmem
  · omega
  · exact h p hmem

theorem add_mask_warned_monotone (minLen : Nat) (m : Masker) (s : String)
    (name : Option PyKey) (h : m.has_warned_short_secret = true) :
    (add_mask minLen m s name).1.has_warned_short_secret = true ∧
    (add_mask minLen m s name).2 = 0 := by
  unfold add_mask
  split_ifs with h1 h2 h3 h4 h5 h6 <;> simp_all

theorem add_mask_warn_le_one (minLen : Nat) (m : Masker) (s : String)
    (name : Option PyKey) :
    (add_mask minLen m s name).2 = 0 ∨
    ((add_mask minLen m s name).2 = 1 ∧
     (add_mask minLen m s name).1.has_warned_short_secret = true) := by
  unfold add_mask
  split_ifs with h1 h2 h3 h4 h5 h6 <;> simp_all

theorem add_mask_seq_warned_zero (minLen : Nat) :
    ∀ (calls : List (String × Option PyKey)) (m : Masker),
      m.has_warned_short_secret = true → (add_mask_seq minLen m calls).2 = 0 := by
  intro calls
  induction calls with
  | nil => intro m _; rfl
  | cons c rest ih =>
      intro m hw
      obtain ⟨s, name⟩ := c
      obtain ⟨hw2, hz⟩ := add_mask_warned_monotone minLen m s name hw
      simp only [add_mask_seq, hz, ih (add_mask minLen m s name).1 hw2]

theorem add_mask_seq_warn_le_one (minLen : Nat) :
    ∀ (calls : List (String × Option PyKey)) (m : Masker),
      (add_mask_seq minLen m calls).2 ≤ 1 := by
  intro calls
  induction calls with
  | nil => intro m; simp [add_mask_seq]
  | cons c rest ih =>
      intro m
      obtain ⟨s, name⟩ := c
      simp only [add_mask_seq]
      rcases add_mask_warn_le_one minLen m s name with hz | ⟨hone, hw2⟩
      · have := ih (add_mask minLen m s name).1
        omega
      · have := add_mask_seq_warned_zero minLen rest (add_mask minLen m s name).1 hw2
        omega

/-- C6: a candidate shorter than the configured minimum is never registered
as a pattern; across any sequence of `add_mask` calls at most one short-secret
warning is logged per process lifetime (none if the latch is already set), and
the very first short skip from a fresh latch logs exactly one; a short
candidate is afterwards still returned unchanged by free-text redaction; yet
a short value sitting under a sensitive field name IS redacted — the length
gate does not apply to structured redaction. -/
theorem c6_min_secret_length_gate :
    (∀ (minLen : Nat) (m : Masker) (s : String) (name : Option PyKey),
        s.length < minLen → (add_mask minLen m s name).1.patterns = m.patterns) ∧
    (∀ (minLen : Nat) (m : Masker) (calls : List (String × Option PyKey)),
        (add_mask_seq minLen m calls).2 ≤ 1 ∧
        (m.has_warned_short_secret = true → (add_mask_seq minLen m calls).2 = 0)) ∧
    (∀ (minLen : Nat) (m : Masker) (s : String),
        m.has_warned_short_secret = false → ¬s.isEmpty = true → s ∉ SKIP_KEYWORDS →
        s.length < minLen → (add_mask minLen m s none).2 = 1) ∧
    (∀ (minLen : Nat) (m : Masker) (s : String) (name : Option PyKey),
        patterns_long_enough minLen m → s.length < minLen →
        maskString (add_mask minLen m s name).1.patterns s = s) ∧
    redact ⟨[], false⟩
        (PyVal.pdict [(PyKey.kstr "password", PyVal.pstr "pwd"),
          (PyKey.kstr "api_key", PyVal.pstr "tk"),
          (PyKey.kstr "connection", PyVal.pdict [(PyKey.kstr "secret", PyVal.pstr "key")])])
        none none
      = PyVal.pdict [(PyKey.kstr "password", PyVal.pstr "***"),
          (PyKey.kstr "api_key", PyVal.pstr "***"),
          (PyKey.kstr "connection", PyVal.pdict [(PyKey.kstr "secret", PyVal.pstr "***")])] := by
  have hshort : ∀ (minLen : Nat) (m : Masker) (s : String) (name : Option PyKey),
      s.length < minLen → (add_mask minLen m s name).1.patterns = m.patterns := by
    intro minLen m s name hlen
    unfold add_mask
    split_ifs with h1 h2 h3 h4 h5 h6 <;> first | rfl | omega
  refine ⟨hshort,
    fun minLen m calls => ⟨add_mask_seq_warn_le_one minLen calls m,
      add_mask_seq_warned_zero minLen calls m⟩, ?_, ?_, rfl⟩
  · intro minLen m s hw hne hkw hlen
    unfold add_mask
    split_ifs with h1 h2 h3 h4 h5 h6 <;> simp_all
  · intro minLen m s name hlong hlen
    rw [hshort minLen m s name hlen]
    exact maskString_all_patterns_longer fun p hp => lt_of_lt_of_le hlen (hlong p hp)

/-- C6 (witness): the length gate applied at the concrete scenario of the
cited test — the 3-character candidate `"abc"` is skipped under minimum 5. -/
theorem c6_min_secret_length_gate_witness :
    (add_mask 5 ⟨[], false⟩ "abc" none).1.patterns = ([] : List String) :=
  c6_min_secret_length_gate.1 5 ⟨[], false⟩ "abc" none (by decide)

/-! ## Merge/redact round trip (C4) -/

theorem maskString_nil (s : String) : maskString [] s = s :=
  maskString_all_patterns_longer (by simp)

theorem lookupKey_self {kvs : List (PyKey × PyVal)} (hnd : nodupKeys kvs = true) :
    ∀ kv ∈ kvs, lookupKey kv.1 kvs = some kv.2 := by
  induction kvs with
  | nil => intro kv hkv; simp at hkv
  | cons a rest ih =>
      intro kv hkv
      simp only [nodupKeys, Bool.and_eq_true, Bool.not_eq_true'] at hnd
      rcases List.mem_cons.mp hkv with rfl | hmem
      · simp [lookupKey]
      · have hne : ¬a.1 = kv.1 := by
          intro heq
          have : dupKey a.1 rest = true :=
            List.any_eq_true.mpr ⟨kv, hmem, by simp [heq.symm]⟩
          rw [hnd.1] at this
          exact Bool.false_ne_true this
        simp only [lookupKey, if_neg hne]
        exact ih hnd.2 kv hmem

/-- The heart of the round trip: with an empty pattern store, merging the
redaction of a safe value back against the original restores the original,
at every fuel level, under any non-sensitive field-name hint. -/
theorem merge_redact_aux (m : Masker) (hpat : m.patterns = []) :
    ∀ (fuel : Nat) (v : PyVal) (name : Option PyKey),
      RTSafeF fuel v = true → should_hide_value_for_key name = false →
      mergeF fuel (redactF m fuel v name) v name = v := by
  intro fuel
  induction fuel with
  | zero => intro v name _ _; rfl
  | succ f ih =>
      have hsens_case : ∀ (s : String) (k : PyKey),
          should_hide_value_for_key (some k) = true →
          mergeF f (redactF m f (PyVal.pstr s) (some k)) (PyVal.pstr s) (some k)
            = PyVal.pstr s := by
        intro s k hk
        cases f with
        | zero => rfl
        | succ f2 => simp [redactF, redact_all, mergeF, hk]
      intro v name hsafe hname
      have hlist : ∀ (xs : List PyVal), (∀ x ∈ xs, RTSafeF f x = true) →
          (((xs.map fun x => redactF m f x name).zip xs).map
              fun p => mergeF f p.1 p.2 name)
            ++ (xs.map fun x => redactF m f x name).drop xs.length = xs := by
        intro xs
        induction xs with
        | nil => intro _; rfl
        | cons x rest ihl =>
            intro hall
            simp only [List.map_cons, List.zip_cons_cons, List.drop_succ_cons,
              List.length_cons, List.cons_append]
            rw [ih x name (hall x (List.mem_cons_self x rest)) hname,
              ihl fun y hy => hall y (List.mem_cons_of_mem x hy)]
      cases v with
      | pstr s =>
          rw [show redactF m (f + 1) (PyVal.pstr s) name
              = PyVal.pstr (maskString m.patterns s) by simp [redactF, hname]]
          rw [hpat, maskString_nil]
          simp only [mergeF]
          split_ifs <;> rfl
      | pint n => simp [redactF, mergeF, hname]
      | pbool b => simp [redactF, mergeF, hname]
      | pnone => simp [redactF, mergeF, hname]
      | pfile t => simp [redactF, mergeF, hname]
      | pset xs => simp [RTSafeF] at hsafe
      | plist xs =>
          have hsx : ∀ x ∈ xs, RTSafeF f x = true := by
            simpa [RTSafeF, List.all_eq_true] using hsafe
          rw [show redactF m (f + 1) (PyVal.plist xs) name
              = PyVal.plist (xs.map fun x => redactF m f x name) by simp [redactF, hname]]
          simp only [mergeF]
          exact congrArg PyVal.plist (hlist xs hsx)
      | ptuple xs =>
          have hsx : ∀ x ∈ xs, RTSafeF f x = true := by
            simpa [RTSafeF, List.all_eq_true] using hsafe
          rw [show redactF m (f + 1) (PyVal.ptuple xs) name
              = PyVal.ptuple (xs.map fun x => redactF m f x name) by simp [redactF, hname]]
          simp only [mergeF]
          exact congrArg PyVal.ptuple (hlist xs hsx)
      | pdict kvs =>
          simp only [RTSafeF, Bool.and_eq_true, List.all_eq_true] at hsafe
          obtain ⟨hnd, hentries⟩ := hsafe
          rw [show redactF m (f + 1) (PyVal.pdict kvs)  name
              = PyVal.pdict (kvs.map fun kv => (kv.1, redactF m f kv.2 (some kv.1)))
              by simp [redactF, hname]]
          simp only [mergeF, List.map_map]
          refine congrArg PyVal.pdict ?_
          have hpoint : ∀ kv ∈ kvs,
              ((fun kv' =>
                  match lookupKey kv'.1 kvs with
                  | some ov => (kv'.1, mergeF f kv'.2 ov (some kv'.1))
                  | none => kv') ∘ fun kv' => (kv'.1, redactF m f kv'.2 (some kv'.1))) kv
                = kv := by
            intro kv hkv
            simp only [Function.comp_apply]
            rw [lookupKey_self hnd kv hkv]
            show (kv.1, mergeF f (redactF m f kv.2 (some kv.1)) kv.2 (some kv.1)) = kv
            obtain ⟨hshape, hsafe2⟩ := hentries kv hkv
            cases hsens : should_hide_value_for_key (some kv.1) with
            | false =>
                rw [ih kv.2 (some kv.1) hsafe2 hsens]
            | true =>
                rw [hsens] at hshape
                have hstr : isPStr kv.2 = true := by simpa using hshape
                obtain ⟨s, hs⟩ : ∃ s, kv.2 = PyVal.pstr s := by
                  cases h2 : kv.2 <;> simp [isPStr, h2] at hstr ⊢
                rw [hs, hsens_case s kv.1 hsens, ← hs]
          calc kvs.map ((fun kv' =>
                    match lookupKey kv'.1 kvs with
                    | some ov => (kv'.1, mergeF f kv'.2 ov (some kv'.1))
                    | none => kv') ∘ fun kv' => (kv'.1, redactF m f kv'.2 (some kv'.1)))
              = kvs.map id := List.map_congr_left hpoint
            _ = kvs := List.map_id kvs

/-- C4 (counterexample): with the pattern `"secret"` registered, redaction
replaces a matching string under the NON-sensitive key `"data"`, but merge
only restores token values under sensitive names, so
`merge(redact(S), S) ≠ S` even though no field of `S` equals the token. -/
theorem c4_counterexample :
    merge (redact ⟨["secret"], false⟩
        (PyVal.pdict [(PyKey.kstr "data", PyVal.pstr "secret")]) none none)
        (PyVal.pdict [(PyKey.kstr "data", PyVal.pstr "secret")]) none none
      = PyVal.pdict [(PyKey.kstr "data", PyVal.pstr "***")] ∧
    merge (redact ⟨["secret"], false⟩
        (PyVal.pdict [(PyKey.kstr "data", PyVal.pstr "secret")]) none none)
        (PyVal.pdict [(PyKey.kstr "data", PyVal.pstr "secret")]) none none
      ≠ PyVal.pdict [(PyKey.kstr "data", PyVal.pstr "secret")] := by
  refine ⟨rfl, ?_⟩
  intro h
  rw [show merge (redact ⟨["secret"], false⟩
        (PyVal.pdict [(PyKey.kstr "data", PyVal.pstr "secret")]) none none)
        (PyVal.pdict [(PyKey.kstr "data", PyVal.pstr "secret")]) none none
      = PyVal.pdict [(PyKey.kstr "data", PyVal.pstr "***")] from rfl] at h
  simp at h

/-- C4 (amended): the merge/redact round trip `merge(redact(S), S) = S` holds
for every structure `S` that is round-trip safe to the chosen depth bound: no
registered value patterns, no set values, dict keys distinct, every value
under a sensitive-named key a plain string, and no string equal to the
token. -/
theorem c4_merge_redact_round_trip (maxD : Nat) (w : Bool) (v : PyVal)
    (hsafe : RTSafeF (maxD + 1) v = true) :
    merge (redact ⟨[], w⟩ v none (some maxD)) v none (some maxD) = v :=
  merge_redact_aux ⟨[], w⟩ rfl (maxD + 1) v none hsafe rfl

/-- C4 (witness): the round trip on the configuration of the cited
`test_merge_round_trip` scenario restores the original exactly. -/
theorem c4_merge_redact_round_trip_witness :
    merge (redact ⟨[], false⟩
        (PyVal.pdict [(PyKey.kstr "database",
            PyVal.pdict [(PyKey.kstr "host", PyVal.pstr "db.example.com"),
              (PyKey.kstr "password", PyVal.pstr "super_secret_password"),
              (PyKey.kstr "username", PyVal.pstr "admin")]),
          (PyKey.kstr "api",
            PyVal.pdict [(PyKey.kstr "api_key", PyVal.pstr "secret_api_key_12345"),
              (PyKey.kstr "endpoint", PyVal.pstr "https://api.example.com"),
              (PyKey.kstr "timeout", PyVal.pint 30)]),
          (PyKey.kstr "app_name", PyVal.pstr "my_application")]) none (some 5))
        (PyVal.pdict [(PyKey.kstr "database",
            PyVal.pdict [(PyKey.kstr "host", PyVal.pstr "db.example.com"),
              (PyKey.kstr "password", PyVal.pstr "super_secret_password"),
              (PyKey.kstr "username", PyVal.pstr "admin")]),
          (PyKey.kstr "api",
            PyVal.pdict [(PyKey.kstr "api_key", PyVal.pstr "secret_api_key_12345"),
              (PyKey.kstr "endpoint", PyVal.pstr "https://api.example.com"),
              (PyKey.kstr "timeout", PyVal.pint 30)]),
          (PyKey.kstr "app_name", PyVal.pstr "my_application")]) none (some 5)
      = PyVal.pdict [(PyKey.kstr "database",
            PyVal.pdict [(PyKey.kstr "host", PyVal.pstr "db.example.com"),
              (PyKey.kstr "password", PyVal.pstr "super_secret_password"),
              (PyKey.kstr "username", PyVal.pstr "admin")]),
          (PyKey.kstr "api",
            PyVal.pdict [(PyKey.kstr "api_key", PyVal.pstr "secret_api_key_12345"),
              (PyKey.kstr "endpoint", PyVal.pstr "https://api.example.com"),
              (PyKey.kstr "timeout", PyVal.pint 30)]),
          (PyKey.kstr "app_name", PyVal.pstr "my_application")] :=
  c4_merge_redact_round_trip 5 false
    (PyVal.pdict [(PyKey.kstr "database",
        PyVal.pdict [(PyKey.kstr "host", PyVal.pstr "db.example.com"),
          (PyKey.kstr "password", PyVal.pstr "super_secret_password"),
          (PyKey.kstr "username", PyVal.pstr "admin")]),
      (PyKey.kstr "api",
        PyVal.pdict [(PyKey.kstr "api_key", PyVal.pstr "secret_api_key_12345"),
          (PyKey.kstr "endpoint", PyVal.pstr "https://api.example.com"),
          (PyKey.kstr "timeout", PyVal.pint 30)]),
      (PyKey.kstr "app_name", PyVal.pstr "my_application")]) (by decide)

/-! ## Cycle safety (C9) -/

/-- The self-referential mapping of `test_circular_references`:
`{"key": "value", "password": "secret_password", "self_ref": <itself>}`,
embedded as heap node 0 whose `self_ref` entry points back to index 0. -/
def cyclic_heap : List HNode :=
  [HNode.hdict [(PyKey.kstr "key", 1), (PyKey.kstr "password", 2),
    (PyKey.kstr "self_ref", 0)],
   HNode.hstr "value", HNode.hstr "secret_password"]

/-- C9: the identity-based visited set makes redaction of self-referential
mappings total — an already-seen mapping is returned as-is instead of being
re-descended (the general guard), the traversal over the object graph is
well-founded even with an unbounded depth budget (the recursion measure of
`redact_heap` is the number of unvisited heap indices), and on the cited
cyclic dict the non-cyclic sensitive field is still redacted while the
back-edge comes back as the original dict object. -/
theorem c9_cyclic_mapping_redaction_terminates :
    (∀ (m : Masker) (heap : List HNode) (visited : Finset Nat) (ref : Nat)
        (kvs : List (PyKey × Nat)) (allMode : Bool),
        nth heap ref = some (HNode.hdict kvs) → ref ∈ visited →
        redact_heap m heap visited ref allMode = HOut.oref ref) ∧
    redact_heap ⟨[], false⟩ cyclic_heap ∅ 0 false
      = HOut.odict [(PyKey.kstr "key", HOut.ostr "value"),
          (PyKey.kstr "password", HOut.ostr "***"),
          (PyKey.kstr "self_ref", HOut.oref 0)] ∧
    nth cyclic_heap 0 = some (HNode.hdict [(PyKey.kstr "key", 1),
      (PyKey.kstr "password", 2), (PyKey.kstr "self_ref", 0)]) := by
  refine ⟨?_, ?_, rfl⟩
  · intro m heap visited ref kvs allMode h hv
    rw [redact_heap]
    simp only [hv, if_true]
    split <;> simp_all
  · have h1 : should_hide_value_for_key (some (PyKey.kstr "key")) = false := by decide
    have h2 : should_hide_value_for_key (some (PyKey.kstr "password")) = true := by decide
    have h3 : should_hide_value_for_key (some (PyKey.kstr "self_ref")) = false := by decide
    rw [redact_heap]
    simp only [cyclic_heap, nth, h1, h2, h3, Finset.not_mem_empty, if_false,
      List.map_cons, List.map_nil, Bool.or_false, Bool.or_true]
    rw [redact_heap, redact_heap, redact_heap]
    simp [nth, maskString_nil, Finset.mem_insert, REDACTED]

/-- C9 (witness): the re-encounter guard applied at the concrete back-edge of
the cyclic heap. -/
theorem c9_cyclic_mapping_redaction_terminates_witness :
    redact_heap ⟨[], false⟩ cyclic_heap {0} 0 false = HOut.oref 0 :=
  c9_cyclic_mapping_redaction_terminates.1 ⟨[], false⟩ cyclic_heap {0} 0
    [(PyKey.kstr "key", 1), (PyKey.kstr "password", 2), (PyKey.kstr "self_ref", 0)]
    false rfl (by decide)

end Airflow
